import Mathlib

/-!
Verification of the `url-shortener` repository: a shallow embedding of the
short-code generation strategy (`shortener_app/services/short_code_strategies.py`),
the URL service (`shortener_app/services/url_service.py`) with its cache layer
(`shortener_app/cache/strategies.py`), and the hit worker
(`shortener_app/hit_processor/hit_worker.py`), together with theorems settling
the behavioural claims about them.
-/

namespace Shortener

/-- The alphabet `Base62ShortCodeStrategy.BASE62_CHARS`:
`"0123456789abcdefghijklmnopqrstuvwxyzABCDEFGHIJKLMNOPQRSTUVWXYZ"`. -/
def BASE62_CHARS : List Char :=
  "0123456789abcdefghijklmnopqrstuvwxyzABCDEFGHIJKLMNOPQRSTUVWXYZ".toList

/-- `BASE62_CHARS[d]` (indexing as in `_base62_encode`; any default works
because every index used is in bounds). -/
def base62Char (d : Nat) : Char := BASE62_CHARS.getD d '?'

/-- The `while number > 0` loop of `Base62ShortCodeStrategy._base62_encode`:
`result = self.BASE62_CHARS[number % 62] + result; number //= 62`. -/
def base62_loop (number : Nat) (result : List Char) : List Char :=
  if h : number = 0 then result
  else base62_loop (number / 62) (base62Char (number % 62) :: result)
termination_by number
decreasing_by exact Nat.div_lt_self (Nat.pos_of_ne_zero h) (by decide)

/-- `Base62ShortCodeStrategy._base62_encode`: `0` maps to `BASE62_CHARS[0]`,
otherwise the while loop builds the code most-significant digit first. -/
def base62_encode (number : Nat) : List Char :=
  if number = 0 then [base62Char 0] else base62_loop number []

/-- `_base62_encode` as a `String` (the Python function returns `str`). -/
def base62_encodeS (number : Nat) : String := String.mk (base62_encode number)

/-- The error raised by `Base62ShortCodeStrategy.generate` when the encoded
string exceeds `max_length` (the spec calls it `CapacityExceeded`). -/
inductive GenError where
  | CapacityExceeded
deriving DecidableEq

/-- `Base62ShortCodeStrategy.generate`: obfuscate with the salt, encode in
Base62, and fail when the encoding exceeds `max_length`. -/
def generate (salt max_length url_id : Nat) : Except GenError String :=
  let obfuscated_id := url_id + salt
  let encoded := base62_encode obfuscated_id
  if encoded.length > max_length then
    Except.error GenError.CapacityExceeded
  else
    Except.ok (String.mk encoded)

/-! ## The URL service and its cache

Shallow embedding of `shortener_app/models/url.py`, the cache strategies of
`shortener_app/cache/strategies.py` (the healthy backend behaves like
`InMemoryCache` / a reachable `RedisCache`; the failing backend reproduces
`RedisCache` whose client raises on every call, where the `except` branches
return `None`/`False` and leave the store untouched — a service constructed
with `cache=None` is observationally the same), and `URLService`
(`shortener_app/services/url_service.py`). The database session is a list of
rows; `query(...).first()` is `List.find?`; timestamps are opaque naturals. -/

/-- A row of the `urls` table (`shortener_app/models/url.py`). -/
structure URLRecord where
  id : Nat
  long_url : String
  short_code : Option String
  total_hits : Nat
  is_active : Bool
  created_at : Nat
  updated_at : Option Nat
deriving DecidableEq

/-- Whether the cache backend is reachable (`InMemoryCache`, or `RedisCache`
with a working client) or every client call raises (`RedisCache` error
branches). -/
inductive CacheBackend where
  | healthy
  | failing
deriving DecidableEq

/-- A cache: backend health plus the key-value store, modelled
extensionally as Python's `dict` / the Redis keyspace. -/
structure Cache where
  backend : CacheBackend
  entries : String → Option String

/-- `cache.get(key)`: the stored value, or `None` when the backend raises
(`RedisCache.get` catches the error and returns `None`). -/
def Cache.get (c : Cache) (key : String) : Option String :=
  match c.backend with
  | CacheBackend.failing => none
  | CacheBackend.healthy => c.entries key

/-- `cache.set(key, value, ttl)`: store the value and report success, or
leave the store untouched and report `False` when the backend raises. -/
def Cache.set (c : Cache) (key value : String) : Cache × Bool :=
  match c.backend with
  | CacheBackend.failing => (c, false)
  | CacheBackend.healthy =>
      ({ c with entries := fun k => if k = key then some value else c.entries k }, true)

/-- `cache.delete(key)`: remove the key and report whether it existed, or
leave the store untouched and report `False` when the backend raises. -/
def Cache.del (c : Cache) (key : String) : Cache × Bool :=
  match c.backend with
  | CacheBackend.failing => (c, false)
  | CacheBackend.healthy =>
      ({ c with entries := fun k => if k = key then none else c.entries k },
        (c.entries key).isSome)

/-- The state a `URLService` acts on: the authoritative database and the
cache. -/
structure ServiceState where
  db : List URLRecord
  cache : Cache

/-- `db.query(URL).filter(URL.short_code == short_code).first()`. -/
def findByCode (db : List URLRecord) (code : String) : Option URLRecord :=
  db.find? (fun u => u.short_code == some code)

/-- `db.query(URL).filter(URL.short_code == short_code, URL.is_active == True).first()`. -/
def findActiveByCode (db : List URLRecord) (code : String) : Option URLRecord :=
  db.find? (fun u => u.short_code == some code && u.is_active)

/-- Python truthiness of the `Optional[str]` returned by `cache.get`
(`if cached_url:`), where both `None` and `""` are falsy. -/
def truthy : Option String → Bool
  | none => false
  | some v => v ≠ ""

/-- `URLService.get_long_url_for_redirect` (cache-aside): try the cache, on
miss query the database for an active row, populate the cache, return the
long URL. Returns the result together with the post-state. -/
def get_long_url_for_redirect (s : ServiceState) (short_code : String) :
    Option String × ServiceState :=
  let cache_key := "url:" ++ short_code
  let cached_url := s.cache.get cache_key
  if truthy cached_url then
    (cached_url, s)
  else
    match findActiveByCode s.db short_code with
    | none => (none, s)
    | some url =>
        (some url.long_url,
          { s with cache := (s.cache.set cache_key url.long_url ).1 })

/-- The Pydantic schema `URLStats` (`shortener_app/schemas/url.py`): fields
`short_code: str`, `hits: int`, `created_at: datetime`,
`last_accessed: Optional[datetime] = None`. Note the required field is
named `hits`, not `total_hits`. -/
structure URLStats where
  short_code : String
  hits : Nat
  created_at : Nat
  last_accessed : Option Nat
deriving DecidableEq

/-- A Python value passed as a keyword argument to the `URLStats(...)`
constructor: a string, an int, a datetime, an optional datetime, or `None`. -/
inductive PyVal where
  | vstr (s : String)
  | vint (n : Nat)
  | vdt (t : Nat)
  | vodt (t : Option Nat)
  | vnone
deriving DecidableEq

/-- Pydantic's `ValidationError`, tagged with the offending schema field. -/
inductive ValidationError where
  | missing (field : String)
deriving DecidableEq

/-- Pydantic v2 construction of `URLStats` from keyword arguments, per this
repo's default model config: a keyword matching no declared field is
ignored, and a declared required field with no (well-typed) value raises
`ValidationError`; `last_accessed` defaults to `None`. -/
def URLStats.validate (kwargs : List (String × PyVal)) :
    Except ValidationError URLStats := do
  let sc ← match kwargs.lookup "short_code" with
    | some (PyVal.vstr s) => Except.ok s
    | _ => Except.error (ValidationError.missing "short_code")
  let h ← match kwargs.lookup "hits" with
    | some (PyVal.vint n) => Except.ok n
    | _ => Except.error (ValidationError.missing "hits")
  let ca ← match kwargs.lookup "created_at" with
    | some (PyVal.vdt t) => Except.ok t
    | _ => Except.error (ValidationError.missing "created_at")
  let la ← match kwargs.lookup "last_accessed" with
    | some (PyVal.vodt t) => Except.ok t
    | _ => Except.ok none
  Except.ok { short_code := sc, hits := h, created_at := ca, last_accessed := la }

/-- `URLService.get_url_stats`: look the row up by code only (no
`is_active` filter); a missing row returns `None`. For a found row the
service calls `URLStats(short_code=url.short_code,
total_hits=url.total_hits, created_at=url.created_at,
last_accessed=url.updated_at)` — the keyword `total_hits` matches no schema
field and the required `hits` is never passed — and whatever that
construction does (here: raise) propagates to the caller. -/
def get_url_stats (s : ServiceState) (short_code : String) :
    Except ValidationError (Option URLStats) :=
  match findByCode s.db short_code with
  | none => Except.ok none
  | some url =>
      (URLStats.validate
        [("short_code",
            match url.short_code with
            | some sc => PyVal.vstr sc
            | none => PyVal.vnone),
         ("total_hits", PyVal.vint url.total_hits),
         ("created_at", PyVal.vdt url.created_at),
         ("last_accessed", PyVal.vodt url.updated_at)]).map some

/-- Observable side effects of `delete_url`, in program order. -/
inductive Event where
  | dbCommit
  | cacheDelete
deriving DecidableEq

/-- Mutating the row found by `.first()`: mark the first row carrying the
code inactive (`url.is_active = False`). -/
def setInactiveFirst : List URLRecord → String → List URLRecord
  | [], _ => []
  | u :: rest, code =>
      if u.short_code == some code then { u with is_active := false } :: rest
      else u :: setInactiveFirst rest code

/-- `URLService.delete_url`: find the row by code only, soft-delete it and
commit, then invalidate the cache key. Returns the success flag, the
post-state, and the emitted effects in program order. -/
def delete_url (s : ServiceState) (short_code : String) :
    Bool × ServiceState × List Event :=
  match findByCode s.db short_code with
  | none => (false, s, [])
  | some _ =>
      let db2 := setInactiveFirst s.db short_code
      (true, { db := db2, cache := (s.cache.del ("url:" ++ short_code)).1 },
        [Event.dbCommit, Event.cacheDelete])

/-- The schema invariant of the `urls` table: `short_code` carries
`unique=True`, so no two rows share a code. -/
def UniqueCodes (db : List URLRecord) : Prop :=
  (db.filterMap URLRecord.short_code).Nodup

/-! ## The hit worker

Shallow embedding of `SimpleHitWorker`
(`shortener_app/hit_processor/hit_worker.py`). A consumed message is a
`HitEvent` together with the broker-assigned `message_id`; `store_hits` and
`db.commit()` outcomes are the booleans `storeOk` and `commitOk`; the
in-memory `hit_counts` dict is an insertion-ordered association list;
wall-clock seconds are naturals. -/

/-- A message consumed from the queue: the hit event's `short_code` plus the
`message_id` the consume step attaches. -/
structure HitMessage where
  short_code : String
  message_id : String
deriving DecidableEq

/-- `self.update_interval = 1` (`SimpleHitWorker.__init__`). -/
def update_interval : Nat := 1

/-- The worker's mutable fields: `hit_counts`, `last_update`,
`processed_count`. -/
structure WorkerState where
  hit_counts : List (String × Nat)
  last_update : Nat
  processed_count : Nat
deriving DecidableEq

/-- `self.hit_counts[code] = self.hit_counts.get(code, 0) + 1` on the dict
(new keys are appended in insertion order). -/
def bumpCount (counts : List (String × Nat)) (code : String) :
    List (String × Nat) :=
  if (counts.lookup code).isSome then
    counts.map (fun p => if p.1 = code then (p.1, p.2 + 1) else p)
  else
    counts ++ [(code, 1)]

/-- `SimpleHitWorker._process_batch`: `store_hits` is attempted first, but a
failure there is caught and swallowed (the code continues processing even if
storage fails), so the per-code counting below happens whatever `storeOk`
is, and the method never raises. -/
def process_batch (storeOk : Bool) (w : WorkerState)
    (messages : List HitMessage) : WorkerState :=
  { w with hit_counts :=
      messages.foldl (fun cs m => bumpCount cs m.short_code) w.hit_counts }

/-- The body of the update loop of `_update_total_hits`: bump `total_hits`
of the row found for the code; a missing row is only warned about. -/
def bumpFirst : List URLRecord → String → Nat → List URLRecord
  | [], _, _ => []
  | u :: rest, code, count =>
      if u.short_code == some code then
        { u with total_hits := u.total_hits + count } :: rest
      else u :: bumpFirst rest code count

/-- The full update loop over `self.hit_counts.items()`. -/
def applyCounts (db : List URLRecord) :
    List (String × Nat) → List URLRecord
  | [] => db
  | (code, count) :: rest => applyCounts (bumpFirst db code count) rest

/-- `SimpleHitWorker._update_total_hits`: empty counters are a no-op;
otherwise all per-code updates go into a single `db.commit()` (outcome
`commitOk`). On success the counters are cleared and `last_update` set to
`now`; on failure the session is rolled back (the database keeps its
pre-call rows), the counters stay untouched and the exception is re-raised
(the `Bool` in the result). -/
def update_total_hits (db : List URLRecord) (w : WorkerState)
    (commitOk : Bool) (now : Nat) : List URLRecord × WorkerState × Bool :=
  if w.hit_counts.isEmpty then (db, w, false)
  else if commitOk then
    (applyCounts db w.hit_counts,
      { w with hit_counts := [], last_update := now }, false)
  else (db, w, true)

/-- The `should_update` condition of `_update_total_hits_if_needed`:
enough seconds elapsed, or counters for at least 50 distinct codes. -/
def should_update (w : WorkerState) (now : Nat) : Bool :=
  decide (now - w.last_update ≥ update_interval) ||
    decide (w.hit_counts.length ≥ 50)

/-- `SimpleHitWorker._update_total_hits_if_needed`:
`if should_update and self.hit_counts:`. -/
def update_total_hits_if_needed (db : List URLRecord) (w : WorkerState)
    (commitOk : Bool) (now : Nat) : List URLRecord × WorkerState × Bool :=
  if should_update w now && !w.hit_counts.isEmpty then
    update_total_hits db w commitOk now
  else (db, w, false)

/-- The observable outcome of one loop iteration of
`SimpleHitWorker.start`. -/
structure IterResult where
  db : List URLRecord
  worker : WorkerState
  acked : Bool
deriving DecidableEq

/-- One iteration of the `while self.running` loop of `SimpleHitWorker.start`
on a consumed non-empty batch: `_process_batch` (whose storage error is
swallowed), then `_update_total_hits_if_needed` (an exception raised there
jumps to the `except` handler before the ack), then `queue.ack` exactly when
the batch carries message ids, then `processed_count` grows. -/
def worker_iteration (storeOk commitOk : Bool) (db : List URLRecord)
    (w : WorkerState) (messages : List HitMessage) (now : Nat) : IterResult :=
  let w1 := process_batch storeOk w messages
  let r2 := update_total_hits_if_needed db w1 commitOk now
  if r2.2.2 then
    { db := r2.1, worker := r2.2.1, acked := false }
  else
    let message_ids := messages.map HitMessage.message_id
    { db := r2.1,
      worker := { r2.2.1 with
        processed_count := r2.2.1.processed_count + messages.length },
      acked := !message_ids.isEmpty }

/-! ## Theorems -/

/-- The encoding loop accumulates exactly the base-62 digits of `number`
(big-endian, i.e. the little-endian `Nat.digits` reversed) in front of the
accumulator. -/
theorem base62_loop_eq (number : Nat) (result : List Char) :
    base62_loop number result =
      ((Nat.digits 62 number).map base62Char).reverse ++ result := by
  induction number using Nat.strong_induction_on generalizing result with
  | _ n ih =>
    rw [base62_loop]
    split
    · rename_i h
      subst h
      simp
    · rename_i h
      rw [ih (n / 62) (Nat.div_lt_self (Nat.pos_of_ne_zero h) (by norm_num))]
      rw [Nat.digits_def' (by norm_num : (1:ℕ) < 62) (Nat.pos_of_ne_zero h)]
      simp

/-- Distinct digit values below 62 map to distinct characters of the
alphabet. -/
theorem base62Char_inj : ∀ d : Nat, d < 62 → ∀ e : Nat, e < 62 → base62Char d = base62Char e → d = e := by
  decide

/-- Mapping `base62Char` over digit lists (all entries below 62) is
injective. -/
theorem map_base62Char_inj (L1 : List Nat) :
    ∀ (L2 : List Nat), (∀ x ∈ L1, x < 62) → (∀ x ∈ L2, x < 62) →
      L1.map base62Char = L2.map base62Char → L1 = L2 := by
  induction L1 with
  | nil =>
    intro L2 _ _ h
    cases L2 with
    | nil => rfl
    | cons b t => simp at h
  | cons a t1 ih =>
    intro L2 h1 h2 h
    cases L2 with
    | nil => simp at h
    | cons b t2 =>
      simp only [List.map_cons, List.cons.injEq] at h
      have hab : a = b :=
        base62Char_inj a (h1 a (by simp)) b (h2 b (by simp)) h.1
      have ht : t1 = t2 :=
        ih t2 (fun x hx => h1 x (by simp [hx])) (fun x hx => h2 x (by simp [hx])) h.2
      rw [hab, ht]

/-- `_base62_encode` is injective: distinct numbers always get distinct
codes. -/
theorem base62_encode_injective : Function.Injective base62_encode := by
  intro m n h
  unfold base62_encode at h
  have hlast : ∀ k : Nat, k ≠ 0 → Nat.digits 62 k ≠ [0] := by
    intro k hk hdig
    have h0 := congrArg (Nat.ofDigits 62) hdig
    rw [Nat.ofDigits_digits] at h0
    simp [Nat.ofDigits_cons, Nat.ofDigits_nil] at h0
    exact hk h0
  by_cases hm : m = 0 <;> by_cases hn : n = 0
  · rw [hm, hn]
  · exfalso
    rw [if_pos hm, if_neg hn, base62_loop_eq] at h
    have h' : (Nat.digits 62 n).map base62Char = [base62Char 0] := by
      have := congrArg List.reverse h
      simpa using this.symm
    have : Nat.digits 62 n = [0] := by
      apply map_base62Char_inj
      · intro x hx
        exact Nat.digits_lt_base (by norm_num) hx
      · intro x hx
        simp at hx
        omega
      · simpa using h'
    exact hlast n hn this
  · exfalso
    rw [if_neg hm, if_pos hn, base62_loop_eq] at h
    have h' : (Nat.digits 62 m).map base62Char = [base62Char 0] := by
      have := congrArg List.reverse h
      simpa using this
    have : Nat.digits 62 m = [0] := by
      apply map_base62Char_inj
      · intro x hx
        exact Nat.digits_lt_base (by norm_num) hx
      · intro x hx
        simp at hx
        omega
      · simpa using h'
    exact hlast m hm this
  · rw [if_neg hm, if_neg hn, base62_loop_eq, base62_loop_eq] at h
    simp only [List.append_nil] at h
    have hrev := congrArg List.reverse h
    simp only [List.reverse_reverse] at hrev
    have hdig : Nat.digits 62 m = Nat.digits 62 n := by
      apply map_base62Char_inj
      · intro x hx
        exact Nat.digits_lt_base (by norm_num) hx
      · intro x hx
        exact Nat.digits_lt_base (by norm_num) hx
      · exact hrev
    have := congrArg (Nat.ofDigits 62) hdig
    rwa [Nat.ofDigits_digits, Nat.ofDigits_digits] at this

/-- C4: for every non-negative integer `n`, `_base62_encode` produces exactly
the big-endian positional base-62 representation of `n` over the alphabet
`BASE62_CHARS` (digit value `d` maps to the character at index `d`), and `0`
encodes as the single character `"0"`. -/
theorem C4_base62_positional (n : Nat) :
    base62_encodeS n =
      if n = 0 then "0"
      else String.mk (((Nat.digits 62 n).map (fun d => BASE62_CHARS.getD d '?')).reverse) := by
  by_cases h : n = 0
  · subst h
    decide
  · simp only [base62_encodeS, base62_encode, if_neg h, base62_loop_eq,
      List.append_nil, base62Char]
    rfl

/-- C2 is false on the code: with `salt = 1256` and `max_length = 5`,
`generate(1)` does not return `"KR"` (it returns the Base62 encoding of
`1257`, which is `"kh"` over the code's digits-lowercase-uppercase
alphabet). -/
theorem C2_counterexample : generate 1256 5 1 ≠ Except.ok "KR" := by
  simp [generate, base62_encode, base62_loop] <;> decide

/-- C2 (amended): with `salt = 1256` and `max_length = 5`, `generate(1)`
returns the Base62 encoding of `1257`, which is the two-character string
`"kh"`; the first minted code under these settings is `"kh"`. -/
theorem C2_generate_one :
    generate 1256 5 1 = Except.ok "kh" ∧ base62_encodeS 1257 = "kh" ∧
      ("kh" : String).length = 2 := by
  refine ⟨?_, ?_, by decide⟩ <;> simp [generate, base62_encodeS, base62_encode, base62_loop] <;> decide

/-- C3 is false on the code: with `salt = 1256` and `max_length = 5`,
`generate(10_000_000)` does not fail with `CapacityExceeded` (the obfuscated
id `10_001_256` encodes in four characters). -/
theorem C3_counterexample :
    generate 1256 5 10000000 ≠ Except.error GenError.CapacityExceeded := by
  simp [generate, base62_encode, base62_loop] <;> decide

/-- C3 (amended): with `salt = 1256` and `max_length = 5`,
`generate(10_000_000)` succeeds with the four-character code `"FXMA"`; with
`salt = 0` it also succeeds (code `"FXsk"`, four characters).
`CapacityExceeded` is only raised once the obfuscated id needs more than five
characters, e.g. at `id + salt = 62^5`. -/
theorem C3_generate_ten_million :
    generate 1256 5 10000000 = Except.ok "FXMA" ∧
      generate 0 5 10000000 = Except.ok "FXsk" ∧
      generate 1256 5 916131576 = Except.error GenError.CapacityExceeded := by
  refine ⟨?_, ?_, ?_⟩ <;> simp [generate, base62_encode, base62_loop] <;> decide

/-- C5: for every fixed salt and any two distinct ids whose encodings both
fit within `max_length` characters (i.e. `generate` succeeds on both), the
Base62 strategy yields different codes — `generate` is injective on its
domain. -/
theorem C5_generate_injective (salt L id1 id2 : Nat) (hne : id1 ≠ id2)
    (c1 c2 : String) (h1 : generate salt L id1 = Except.ok c1)
    (h2 : generate salt L id2 = Except.ok c2) : c1 ≠ c2 := by
  simp only [generate] at h1 h2
  split at h1
  · simp at h1
  · split at h2
    · simp at h2
    · simp only [Except.ok.injEq] at h1 h2
      subst h1
      subst h2
      intro hc
      have hdata : base62_encode (id1 + salt) = base62_encode (id2 + salt) :=
        congrArg String.data hc
      have := base62_encode_injective hdata
      omega

/-- Witness for C5 at `salt = 0`, `L = 5`, ids `1 ≠ 2`: both generate calls
succeed and the codes differ. -/
theorem C5_generate_injective_witness :
    generate 0 5 1 = Except.ok "1" ∧ generate 0 5 2 = Except.ok "2" ∧
      ("1" : String) ≠ "2" := by
  refine ⟨?_, ?_,
    C5_generate_injective 0 5 1 2 (by decide) "1" "2" ?_ ?_⟩ <;>
    simp [generate, base62_encode, base62_loop] <;> decide

/-- The tail of a database with unique codes again has unique codes. -/
theorem UniqueCodes.tail {u : URLRecord} {rest : List URLRecord}
    (h : UniqueCodes (u :: rest)) : UniqueCodes rest := by
  unfold UniqueCodes at h ⊢
  cases hc : u.short_code with
  | none => simpa [List.filterMap_cons, hc] using h
  | some c =>
      rw [List.filterMap_cons, hc] at h
      exact h.of_cons

/-- In a database with unique codes, once the first row carrying `code` is
soft-deleted no active row carrying `code` remains. -/
theorem findActive_setInactiveFirst (db : List URLRecord) (code : String)
    (hu : UniqueCodes db) (hfind : (findByCode db code).isSome) :
    findActiveByCode (setInactiveFirst db code) code = none := by
  induction db with
  | nil => simp [findByCode] at hfind
  | cons u rest ih =>
      by_cases hc : u.short_code = some code
      · have hcb : (u.short_code == some code) = true := by simp [hc]
        rw [setInactiveFirst, if_pos hcb]
        unfold findActiveByCode
        rw [List.find?_cons_of_neg _ (by simp)]
        apply List.find?_eq_none.2
        intro v hv
        simp only [Bool.and_eq_true, beq_iff_eq, Bool.not_eq_true]
        intro hvc
        exfalso
        unfold UniqueCodes at hu
        rw [List.filterMap_cons, hc] at hu
        have : code ∈ rest.filterMap URLRecord.short_code :=
          List.mem_filterMap.2 ⟨v, hv, hvc.1⟩
        exact (List.nodup_cons.1 hu).1 this
      · have hcb : (u.short_code == some code) = false := by simp [hc]
        rw [setInactiveFirst, if_neg (by simp [hcb])]
        unfold findActiveByCode
        rw [List.find?_cons_of_neg _ (by simp [hcb])]
        have hfind' : (findByCode rest code).isSome := by
          unfold findByCode at hfind
          rwa [List.find?_cons_of_neg _ (by simp [hcb])] at hfind
        exact ih (UniqueCodes.tail hu) hfind'

/-- C6: after `delete_url` succeeds (on a reachable cache and a database
satisfying the unique-code constraint), `get_long_url_for_redirect` returns
absent and the cache entry for the code is absent; the effect trace shows the
database commit strictly before the cache invalidation. -/
theorem C6_delete_isolation (s : ServiceState) (code : String)
    (hb : s.cache.backend = CacheBackend.healthy) (hu : UniqueCodes s.db)
    (hdel : (delete_url s code).1 = true) :
    (get_long_url_for_redirect (delete_url s code).2.1 code).1 = none ∧
    (delete_url s code).2.1.cache.get ("url:" ++ code) = none ∧
    (delete_url s code).2.2 = [Event.dbCommit, Event.cacheDelete] := by
  unfold delete_url at hdel ⊢
  cases hfind : findByCode s.db code with
  | none => rw [hfind] at hdel; simp at hdel
  | some u =>
      have hget :
          ((s.cache.del ("url:" ++ code)).1).get ("url:" ++ code) = none := by
        unfold Cache.del Cache.get
        rw [hb]
        simp
      refine ⟨?_, hget, rfl⟩
      show (get_long_url_for_redirect
        (ServiceState.mk (setInactiveFirst s.db code)
          (s.cache.del ("url:" ++ code)).1) code).1 = none
      unfold get_long_url_for_redirect
      simp only [hget, truthy]
      rw [findActive_setInactiveFirst s.db code hu (by rw [hfind]; rfl)]
      simp

/-- Witness for C6: a one-row database with code `"a"`, an empty healthy
cache; delete succeeds and the theorem's conclusions hold. -/
theorem C6_delete_isolation_witness :
    (Cache.mk CacheBackend.healthy (fun _ => none)).backend = CacheBackend.healthy ∧
    UniqueCodes [URLRecord.mk 1 "http://e.com" (some "a") 0 true 0 none] ∧
    (delete_url
      (ServiceState.mk [URLRecord.mk 1 "http://e.com" (some "a") 0 true 0 none]
        (Cache.mk CacheBackend.healthy (fun _ => none))) "a").1 = true ∧
    (get_long_url_for_redirect
      (delete_url
        (ServiceState.mk [URLRecord.mk 1 "http://e.com" (some "a") 0 true 0 none]
          (Cache.mk CacheBackend.healthy (fun _ => none))) "a").2.1 "a").1 = none := by
  refine ⟨rfl, by simp [UniqueCodes], rfl, ?_⟩
  exact (C6_delete_isolation
    (ServiceState.mk [URLRecord.mk 1 "http://e.com" (some "a") 0 true 0 none]
      (Cache.mk CacheBackend.healthy (fun _ => none))) "a" rfl
    (by simp [UniqueCodes]) rfl).1

/-- C7: `get_long_url_for_redirect` leaves the database — in particular
every row's `total_hits` — unchanged; its only write effect is on the cache
entry of the resolved key (populated on a miss). -/
theorem C7_resolve_frame (s : ServiceState) (code : String) :
    (get_long_url_for_redirect s code).2.db = s.db ∧
    (get_long_url_for_redirect s code).2.db.map URLRecord.total_hits =
      s.db.map URLRecord.total_hits ∧
    ∀ k, k ≠ "url:" ++ code →
      (get_long_url_for_redirect s code).2.cache.entries k = s.cache.entries k := by
  unfold get_long_url_for_redirect
  cases htr : truthy (s.cache.get ("url:" ++ code)) with
  | true => simp [htr]
  | false =>
      simp only [htr, Bool.false_eq_true, if_false]
      cases hfind : findActiveByCode s.db code with
      | none => simp [hfind]
      | some url =>
          simp only [hfind]
          refine ⟨trivial, trivial, ?_⟩
          intro k hk
          unfold Cache.set
          cases s.cache.backend with
          | failing => rfl
          | healthy => simp [hk]

/-- Witness for C7 at a concrete state, code and foreign key. -/
theorem C7_resolve_frame_witness :
    ("x" : String) ≠ "url:" ++ "a" ∧
    (get_long_url_for_redirect
      (ServiceState.mk [URLRecord.mk 1 "http://e.com" (some "a") 3 true 0 none]
        (Cache.mk CacheBackend.healthy (fun _ => none))) "a").2.db =
      [URLRecord.mk 1 "http://e.com" (some "a") 3 true 0 none] ∧
    (get_long_url_for_redirect
      (ServiceState.mk [URLRecord.mk 1 "http://e.com" (some "a") 3 true 0 none]
        (Cache.mk CacheBackend.healthy (fun _ => none))) "a").2.cache.entries "x" =
      (fun _ => (none : Option String)) "x" := by
  refine ⟨by decide, ?_, ?_⟩
  · exact (C7_resolve_frame
      (ServiceState.mk [URLRecord.mk 1 "http://e.com" (some "a") 3 true 0 none]
        (Cache.mk CacheBackend.healthy (fun _ => none))) "a").1
  · exact (C7_resolve_frame
      (ServiceState.mk [URLRecord.mk 1 "http://e.com" (some "a") 3 true 0 none]
        (Cache.mk CacheBackend.healthy (fun _ => none))) "a").2.2 "x" (by decide)

/-- C8: when every cache operation fails (the backend raises on `get` and
`set`), `get_long_url_for_redirect` returns exactly the authoritative-store
lookup for an active row with the code, no error surfaces, and the state is
left unchanged. -/
theorem C8_failing_cache_degrades (db : List URLRecord)
    (entries : String → Option String) (code : String) :
    (get_long_url_for_redirect
        (ServiceState.mk db (Cache.mk CacheBackend.failing entries)) code).1 =
      (findActiveByCode db code).map URLRecord.long_url ∧
    (get_long_url_for_redirect
        (ServiceState.mk db (Cache.mk CacheBackend.failing entries)) code).2.db = db ∧
    (get_long_url_for_redirect
        (ServiceState.mk db (Cache.mk CacheBackend.failing entries)) code).2.cache.entries =
      entries := by
  unfold get_long_url_for_redirect Cache.get
  simp only [truthy]
  cases hfind : findActiveByCode db code with
  | none => exact ⟨rfl, rfl, rfl⟩
  | some url => exact ⟨rfl, rfl, rfl⟩

/-- For every row `.first()` finds, the `URLStats(...)` construction inside
`get_url_stats` raises `ValidationError` on the required field `hits`: the
service passes the keyword `total_hits`, which matches no schema field,
and never passes `hits`. -/
theorem get_url_stats_raises_on_found (s : ServiceState) (code : String)
    (u : URLRecord) (hfind : findByCode s.db code = some u) :
    get_url_stats s code = Except.error (ValidationError.missing "hits") := by
  have hsc : u.short_code = some code := by
    have h := List.find?_some (by unfold findByCode at hfind; exact hfind)
    simpa using h
  unfold get_url_stats
  rw [hfind]
  dsimp only
  rw [hsc]
  rfl

/-- C10 describes the code's intent (the repo's stats test and the delete
half), but the stats conjunct fails on the code: at a concrete soft-deleted
row, `get_url_stats` does not return the record's stats — the
`URLStats(...)` call raises `ValidationError` because the schema's required
field `hits` is never passed (the service passes `total_hits`, which
matches no field) — while `delete_url` does still find the row and
succeed, since neither lookup filters on `is_active`. -/
theorem C10_stats_validation_error :
    get_url_stats
      (ServiceState.mk [URLRecord.mk 1 "http://e.com" (some "a") 7 false 0 none]
        (Cache.mk CacheBackend.healthy (fun _ => none))) "a" =
      Except.error (ValidationError.missing "hits") ∧
    (delete_url
      (ServiceState.mk [URLRecord.mk 1 "http://e.com" (some "a") 7 false 0 none]
        (Cache.mk CacheBackend.healthy (fun _ => none))) "a").1 = true := by
  constructor
  · exact get_url_stats_raises_on_found
      (ServiceState.mk [URLRecord.mk 1 "http://e.com" (some "a") 7 false 0 none]
        (Cache.mk CacheBackend.healthy (fun _ => none))) "a"
      (URLRecord.mk 1 "http://e.com" (some "a") 7 false 0 none) rfl
  · rfl

/-- Bumping a dict counter never empties it. -/
theorem bumpCount_ne_nil (cs : List (String × Nat)) (c : String) :
    bumpCount cs c ≠ [] := by
  unfold bumpCount
  split
  · rename_i h
    cases cs with
    | nil => simp [List.lookup] at h
    | cons p t => simp
  · simp

/-- Counting a non-empty batch leaves the counters non-empty. -/
theorem foldl_bumpCount_ne_nil (messages : List HitMessage) :
    ∀ cs : List (String × Nat), messages ≠ [] →
      messages.foldl (fun a m => bumpCount a m.short_code) cs ≠ [] := by
  induction messages with
  | nil => intro cs h; exact absurd rfl h
  | cons m rest ih =>
      intro cs _
      cases rest with
      | nil => simpa using bumpCount_ne_nil cs m.short_code
      | cons m2 t =>
          simpa using ih (bumpCount cs m.short_code) (by simp)

/-- C1 is false on the code: `store_hits` fails on the batch
(`storeOk = false`), no counter flush is due, yet the batch is acked —
`_process_batch` swallows the storage error, so the messages do not stay
pending. -/
theorem C1_counterexample :
    (worker_iteration false false [] (WorkerState.mk [] 5 0)
      [HitMessage.mk "abc12" "1-0"] 5).acked = true := by
  rfl

/-- C1 (amended): for a non-empty batch, the ack decision is independent of
the `store_hits` outcome (its failure is caught inside `_process_batch`); ack
is issued iff the counter flush was skipped (not due) or its commit
succeeded. -/
theorem C1_ack_semantics (storeOk commitOk : Bool) (db : List URLRecord)
    (w : WorkerState) (messages : List HitMessage) (now : Nat)
    (hne : messages ≠ []) :
    (worker_iteration storeOk commitOk db w messages now).acked =
      (!(should_update (process_batch storeOk w messages) now) || commitOk) := by
  have hw1 : (process_batch storeOk w messages).hit_counts ≠ [] :=
    foldl_bumpCount_ne_nil messages w.hit_counts hne
  have hempty : (process_batch storeOk w messages).hit_counts.isEmpty = false := by
    rw [List.isEmpty_eq_false]
    exact hw1
  have hids : (messages.map HitMessage.message_id).isEmpty = false := by
    cases messages with
    | nil => exact absurd rfl hne
    | cons m t => rfl
  unfold worker_iteration update_total_hits_if_needed update_total_hits
  cases hsu : should_update (process_batch storeOk w messages) now with
  | false => simp [hsu, hempty, hids]
  | true =>
      cases commitOk with
      | true => simp [hsu, hempty, hids]
      | false => simp [hsu, hempty, hids]

/-- Witness for C1 (amended) on a concrete batch where a flush is due and
its commit succeeds. -/
theorem C1_ack_semantics_witness :
    [HitMessage.mk "abc12" "1-0"] ≠ [] ∧
    (worker_iteration true true [] (WorkerState.mk [] 0 0)
        [HitMessage.mk "abc12" "1-0"] 5).acked =
      (!(should_update (process_batch true (WorkerState.mk [] 0 0)
          [HitMessage.mk "abc12" "1-0"]) 5) || true) :=
  ⟨by decide, C1_ack_semantics true true [] (WorkerState.mk [] 0 0)
    [HitMessage.mk "abc12" "1-0"] 5 (by decide)⟩

/-- Bumping the counter of `code` updates exactly the row `.first()` finds
for `code`. -/
theorem findByCode_bumpFirst_same (db : List URLRecord) (code : String)
    (count : Nat) :
    findByCode (bumpFirst db code count) code =
      (findByCode db code).map
        (fun u => { u with total_hits := u.total_hits + count }) := by
  induction db with
  | nil => rfl
  | cons u rest ih =>
      by_cases hc : u.short_code = some code
      · unfold bumpFirst findByCode
        rw [if_pos (by simp [hc])]
        rw [List.find?_cons_of_pos _ (by simp [hc]),
          List.find?_cons_of_pos _ (by simp [hc])]
        rfl
      · unfold bumpFirst findByCode
        rw [if_neg (by simp [hc])]
        rw [List.find?_cons_of_neg _ (by simp [hc]),
          List.find?_cons_of_neg _ (by simp [hc])]
        exact ih

/-- Bumping the counter of `code` leaves lookups of other codes alone. -/
theorem findByCode_bumpFirst_other (db : List URLRecord) (code code' : String)
    (count : Nat) (hne : code' ≠ code) :
    findByCode (bumpFirst db code count) code' = findByCode db code' := by
  induction db with
  | nil => rfl
  | cons u rest ih =>
      by_cases hc : u.short_code = some code
      · have hc' : u.short_code ≠ some code' := by
          rw [hc]
          intro h
          exact hne (by injection h with h; exact h.symm)
        unfold bumpFirst findByCode
        rw [if_pos (by simp [hc])]
        rw [List.find?_cons_of_neg _ (by simp [hc]; exact Ne.symm hne),
          List.find?_cons_of_neg _ (by simp [hc'])]
      · unfold bumpFirst findByCode
        rw [if_neg (by simp [hc])]
        by_cases hc' : u.short_code = some code'
        · rw [List.find?_cons_of_pos _ (by simp [hc']),
            List.find?_cons_of_pos _ (by simp [hc'])]
        · rw [List.find?_cons_of_neg _ (by simp [hc']),
            List.find?_cons_of_neg _ (by simp [hc'])]
          exact ih

/-- Applying a counters map touches no code outside its key set. -/
theorem findByCode_applyCounts_notin (counts : List (String × Nat)) :
    ∀ (db : List URLRecord) (code : String), code ∉ counts.map Prod.fst →
      findByCode (applyCounts db counts) code = findByCode db code := by
  induction counts with
  | nil => intro db code _; rfl
  | cons p rest ih =>
      intro db code h
      obtain ⟨c, n⟩ := p
      simp only [List.map_cons, List.mem_cons, not_or] at h
      show findByCode (applyCounts (bumpFirst db c n) rest) code = findByCode db code
      rw [ih (bumpFirst db c n) code h.2]
      exact findByCode_bumpFirst_other db c code n h.1

/-- Applying a counters map with pairwise-distinct codes adds each delta to
the row its code finds (and keeps absent codes absent). -/
theorem findByCode_applyCounts_mem (counts : List (String × Nat)) :
    ∀ (db : List URLRecord) (code : String) (count : Nat),
      (counts.map Prod.fst).Nodup → (code, count) ∈ counts →
      findByCode (applyCounts db counts) code =
        (findByCode db code).map
          (fun u => { u with total_hits := u.total_hits + count }) := by
  induction counts with
  | nil => intro db code count _ hmem; simp at hmem
  | cons p rest ih =>
      intro db code count hnd hmem
      obtain ⟨c, n⟩ := p
      simp only [List.map_cons, List.nodup_cons] at hnd
      rcases List.mem_cons.1 hmem with heq | hmem'
      · cases heq
        show findByCode (applyCounts (bumpFirst db code count) rest) code = _
        rw [findByCode_applyCounts_notin rest (bumpFirst db code count) code hnd.1]
        exact findByCode_bumpFirst_same db code count
      · have hcode_in : code ∈ rest.map Prod.fst :=
          List.mem_map.2 ⟨(code, count), hmem', rfl⟩
        have hne : code ≠ c := by
          intro h
          rw [h] at hcode_in
          exact hnd.1 hcode_in
        show findByCode (applyCounts (bumpFirst db c n) rest) code = _
        rw [ih (bumpFirst db c n) code count hnd.2 hmem',
          findByCode_bumpFirst_other db c code n hne]

/-- C9: for a non-empty counters map (with the dict's pairwise-distinct
keys), the flush is atomic. On a successful commit every per-code delta is
applied — the row found for each counted code gains exactly its delta, rows
of uncounted codes are untouched — the counters map is cleared and
`last_update` becomes `now`, with no exception. On a failed commit the
transaction is rolled back: the database and the counters map are returned
exactly as they were, and the exception propagates. -/
theorem C9_flush_atomic (db : List URLRecord) (w : WorkerState) (now : Nat)
    (hne : w.hit_counts ≠ []) (hnd : (w.hit_counts.map Prod.fst).Nodup) :
    ((update_total_hits db w true now).2.1.hit_counts = [] ∧
      (update_total_hits db w true now).2.1.last_update = now ∧
      (update_total_hits db w true now).2.2 = false ∧
      (∀ code count, (code, count) ∈ w.hit_counts →
        findByCode (update_total_hits db w true now).1 code =
          (findByCode db code).map
            (fun u => { u with total_hits := u.total_hits + count })) ∧
      (∀ code, code ∉ w.hit_counts.map Prod.fst →
        findByCode (update_total_hits db w true now).1 code =
          findByCode db code)) ∧
    update_total_hits db w false now = (db, w, true) := by
  have hempty : w.hit_counts.isEmpty = false := by
    rw [List.isEmpty_eq_false]
    exact hne
  unfold update_total_hits
  simp only [hempty, Bool.false_eq_true, if_false, if_true]
  refine ⟨⟨trivial, trivial, trivial, ?_, ?_⟩, trivial⟩
  · intro code count hmem
    exact findByCode_applyCounts_mem w.hit_counts db code count hnd hmem
  · intro code hnotin
    exact findByCode_applyCounts_notin w.hit_counts db code hnotin

/-- Witness for C9: one counted code `"a"` with delta 2 over a one-row
database; the successful flush bumps the row from 3 to 5 hits. -/
theorem C9_flush_atomic_witness :
    ([("a", 2)] : List (String × Nat)) ≠ [] ∧
    (([("a", 2)] : List (String × Nat)).map Prod.fst).Nodup ∧
    findByCode
      (update_total_hits [URLRecord.mk 1 "http://e.com" (some "a") 3 true 0 none]
        (WorkerState.mk [("a", 2)] 0 0) true 9).1 "a" =
      (findByCode [URLRecord.mk 1 "http://e.com" (some "a") 3 true 0 none] "a").map
        (fun u => { u with total_hits := u.total_hits + 2 }) := by
  refine ⟨by decide, by decide, ?_⟩
  exact (C9_flush_atomic [URLRecord.mk 1 "http://e.com" (some "a") 3 true 0 none]
    (WorkerState.mk [("a", 2)] 0 0) 9 (by decide) (by decide)).1.2.2.2.1 "a" 2
    (by decide)

end Shortener
